import Mathlib

/-!
Shallow embedding of the MemorizePro study-aid application (React/TypeScript),
covering the mastery tracker, the quiz-submit step, the local-storage backed
persistence layer (`DB`), and the quiz-completion handlers.

The repository holds two variants of the application file: the base variant
(`src/App.tsx`, namespace `V0` below) and the extended variant
(`src/unnamed/part_000`, unprefixed definitions below). The `types.ts` module
they import is not in the repository; the field sets of `User` and
`QuizFeedback` below follow their use in the two application files.

JavaScript objects keyed by strings (`Record<string, number>`, the pushed
history records) are embedded as insertion-ordered association lists; a spread
update `{...prev, [cid]: v}` keeps the position of an existing key and appends
a fresh one, which `mset` mirrors. JavaScript numbers reaching the mastery
logic are integers, embedded as `Int`.
-/

/-- A JS `Record<string, number>` (concept id → mastery value), as an
insertion-ordered association list. -/
abbrev MasteryMap := List (String × Int)

/-- `(m[cid] || 0)`: the value stored under `k`, defaulting to `0` when the
key is absent. -/
def mget (m : MasteryMap) (k : String) : Int :=
  (m.lookup k).getD 0

/-- `{...m, [k]: v}`: replace the first binding of `k` in place, or append a
fresh binding when `k` is absent. -/
def mset : MasteryMap → String → Int → MasteryMap
  | [], k, v => [(k, v)]
  | (k', v') :: rest, k, v =>
    if k' = k then (k, v) :: rest else (k', v') :: mset rest k v

/-- One mastery update of the session-local map in `QuizView.handleSubmit`
(extended variant): on a correct answer `masteries[cid] = (prev[cid] || 0) + 10`,
on an incorrect answer `masteries[cid] = Math.max(0, (prev[cid] || 0) - 5)`. -/
def stepMastery (m : MasteryMap) (cid : String) (correct : Bool) : MasteryMap :=
  if correct then
    mset m cid (mget m cid + 10)
  else
    mset m cid (max 0 (mget m cid - 5))

/-- The session-local `masteries` state after a sequence of graded outcomes
`(conceptId, isCorrect)`, starting from the initial `{}`. -/
def sessionMasteries (outcomes : List (String × Bool)) : MasteryMap :=
  outcomes.foldl (fun m o => stepMastery m o.1 o.2) []

/-- The session `score` state after a sequence of graded outcomes: incremented
by one exactly on `isCorrect` results (both variants). -/
def sessionScore (outcomes : List (String × Bool)) : Nat :=
  outcomes.foldl (fun s o => if o.2 then s + 1 else s) 0

/-- The merge loop of `App.onComplete` (extended variant):
`Object.entries(masteries).forEach(([cid, increase]) => {
   updatedUser.conceptMastery[cid] =
     Math.min(100, (updatedUser.conceptMastery[cid] || 0) + increase); })`. -/
def applyMasteries (persist : MasteryMap) (deltas : MasteryMap) : MasteryMap :=
  deltas.foldl (fun acc kv => mset acc kv.1 (min 100 (mget acc kv.1 + kv.2))) persist

/-- The persistent mastery of concept `c` after a completed session: the
session-local map of `outcomes` merged into the pre-session map `persist`. -/
def finalMastery (persist : MasteryMap) (outcomes : List (String × Bool))
    (c : String) : Int :=
  mget (applyMasteries persist (sessionMasteries outcomes)) c

/-! ### Association-list lemmas -/

theorem lookup_mem {m : MasteryMap} {k : String} {v : Int}
    (h : m.lookup k = some v) : (k, v) ∈ m := by
  induction m with
  | nil => simp [List.lookup] at h
  | cons kv rest ih =>
    obtain ⟨a, b⟩ := kv
    by_cases hk : k = a
    · simp [List.lookup, hk] at h
      simp [hk, h]
    · simp [List.lookup, beq_false_of_ne hk] at h
      exact List.mem_cons_of_mem _ (ih h)

theorem mem_mset {m : MasteryMap} {k : String} {v : Int} {kv : String × Int}
    (h : kv ∈ mset m k v) : kv = (k, v) ∨ kv ∈ m := by
  induction m with
  | nil => simpa [mset] using h
  | cons kv' rest ih =>
    obtain ⟨a, b⟩ := kv'
    by_cases hk : a = k
    · simp only [mset, hk, if_pos, List.mem_cons] at h
      rcases h with h1 | h1
      · exact Or.inl h1
      · exact Or.inr (List.mem_cons_of_mem _ h1)
    · simp only [mset, if_neg hk, List.mem_cons] at h
      rcases h with h1 | h1
      · exact Or.inr (by simp [h1])
      · rcases ih h1 with h2 | h2
        · exact Or.inl h2
        · exact Or.inr (List.mem_cons_of_mem _ h2)

theorem lookup_mset_self (m : MasteryMap) (k : String) (v : Int) :
    (mset m k v).lookup k = some v := by
  induction m with
  | nil => simp [mset, List.lookup]
  | cons kv rest ih =>
    obtain ⟨a, b⟩ := kv
    by_cases hk : a = k
    · simp [mset, hk, List.lookup]
    · simp [mset, hk, List.lookup, beq_false_of_ne (Ne.symm hk), ih]

theorem lookup_mset_ne (m : MasteryMap) (k : String) (v : Int) {c : String}
    (hne : c ≠ k) : (mset m k v).lookup c = m.lookup c := by
  induction m with
  | nil => simp [mset, List.lookup, beq_false_of_ne hne]
  | cons kv rest ih =>
    obtain ⟨a, b⟩ := kv
    by_cases hk : a = k
    · subst hk
      simp [mset, List.lookup, beq_false_of_ne hne]
    · by_cases hc : c = a
      · simp [mset, hk, List.lookup, hc]
      · simp [mset, hk, List.lookup, beq_false_of_ne hc, ih]

theorem mget_mset_self (m : MasteryMap) (k : String) (v : Int) :
    mget (mset m k v) k = v := by
  simp [mget, lookup_mset_self]

theorem mget_mset_ne (m : MasteryMap) (k : String) (v : Int) {c : String}
    (hne : c ≠ k) : mget (mset m k v) c = mget m c := by
  simp [mget, lookup_mset_ne m k v hne]

/-- Values of a map with only entries in `[0,100]` read back in `[0,100]`,
absent keys included. -/
theorem mget_bounds {m : MasteryMap}
    (h : ∀ kv ∈ m, 0 ≤ kv.2 ∧ kv.2 ≤ 100) (c : String) :
    0 ≤ mget m c ∧ mget m c ≤ 100 := by
  unfold mget
  cases hl : m.lookup c with
  | none => simp
  | some v => simpa using h (c, v) (lookup_mem hl)

/-- Values of a map with only nonnegative entries read back nonnegative. -/
theorem mget_nonneg {m : MasteryMap}
    (h : ∀ kv ∈ m, 0 ≤ kv.2) (c : String) : 0 ≤ mget m c := by
  unfold mget
  cases hl : m.lookup c with
  | none => simp
  | some v => simpa using h (c, v) (lookup_mem hl)

/-! ### Session-local map invariants -/

theorem stepMastery_nonneg {m : MasteryMap}
    (h : ∀ kv ∈ m, 0 ≤ kv.2) (cid : String) (b : Bool) :
    ∀ kv ∈ stepMastery m cid b, 0 ≤ kv.2 := by
  intro kv hkv
  cases b with
  | true =>
    simp only [stepMastery, if_pos] at hkv
    rcases mem_mset hkv with h1 | h1
    · have hm := mget_nonneg h cid
      have hv : kv.2 = mget m cid + 10 := by rw [h1]
      omega
    · exact h _ h1
  | false =>
    simp only [stepMastery, Bool.false_eq_true, if_neg, not_false_iff] at hkv
    rcases mem_mset hkv with h1 | h1
    · have hv : kv.2 = max 0 (mget m cid - 5) := by rw [h1]
      have hm := le_max_left (0 : Int) (mget m cid - 5)
      omega
    · exact h _ h1

/-- Every value of the session-local map is nonnegative. -/
theorem sessionMasteries_nonneg (outcomes : List (String × Bool)) :
    ∀ kv ∈ sessionMasteries outcomes, 0 ≤ kv.2 := by
  unfold sessionMasteries
  have H : ∀ (l : List (String × Bool)) (m : MasteryMap),
      (∀ kv ∈ m, 0 ≤ kv.2) →
      ∀ kv ∈ l.foldl (fun m o => stepMastery m o.1 o.2) m, 0 ≤ kv.2 := by
    intro l
    induction l with
    | nil => intro m hm; simpa using hm
    | cons o rest ih =>
      intro m hm
      exact ih _ (stepMastery_nonneg hm o.1 o.2)
  exact H outcomes [] (by simp)

/-- Keys of the session-local map all come from the outcome sequence. -/
theorem sessionMasteries_keys (outcomes : List (String × Bool)) :
    ∀ kv ∈ sessionMasteries outcomes, kv.1 ∈ outcomes.map Prod.fst := by
  unfold sessionMasteries
  have H : ∀ (l : List (String × Bool)) (m : MasteryMap),
      ∀ kv ∈ l.foldl (fun m o => stepMastery m o.1 o.2) m,
        kv.1 ∈ m.map Prod.fst ∨ kv.1 ∈ l.map Prod.fst := by
    intro l
    induction l with
    | nil => intro m kv hkv; exact Or.inl (List.mem_map_of_mem _ hkv)
    | cons o rest ih =>
      intro m kv hkv
      rcases ih (stepMastery m o.1 o.2) kv hkv with h | h
      · unfold stepMastery at h
        split at h
        · rcases List.mem_map.mp h with ⟨kv', hkv', hfst⟩
          rcases mem_mset hkv' with h' | h'
          · subst h'
            right; simp at hfst; simp [hfst]
          · exact Or.inl (hfst ▸ List.mem_map_of_mem _ h')
        · rcases List.mem_map.mp h with ⟨kv', hkv', hfst⟩
          rcases mem_mset hkv' with h' | h'
          · subst h'
            right; simp at hfst; simp [hfst]
          · exact Or.inl (hfst ▸ List.mem_map_of_mem _ h')
      · right; simp [h]
  intro kv hkv
  rcases H outcomes [] kv hkv with h | h
  · simp at h
  · exact h

/-! ### Merge-loop lemmas -/

theorem applyMasteries_cons (p : MasteryMap) (d : String × Int) (rest : MasteryMap) :
    applyMasteries p (d :: rest) =
      applyMasteries (mset p d.1 (min 100 (mget p d.1 + d.2))) rest := rfl

/-- One merge step keeps every stored value inside `[0,100]` when the applied
increment is nonnegative. -/
theorem mset_min_range {p : MasteryMap} (hp : ∀ kv ∈ p, 0 ≤ kv.2 ∧ kv.2 ≤ 100)
    {inc : Int} (hinc : 0 ≤ inc) (c : String) :
    ∀ kv ∈ mset p c (min 100 (mget p c + inc)), 0 ≤ kv.2 ∧ kv.2 ≤ 100 := by
  intro kv hkv
  rcases mem_mset hkv with h1 | h1
  · have h0 := mget_bounds hp c
    have hv : kv.2 = min 100 (mget p c + inc) := by rw [h1]
    have hmin1 : min (100 : Int) (mget p c + inc) ≤ 100 := min_le_left _ _
    have hmin2 : (0 : Int) ≤ min 100 (mget p c + inc) := le_min (by omega) (by omega)
    omega
  · exact hp kv h1

/-- Merging nonnegative deltas into a `[0,100]`-valued map stays `[0,100]`. -/
theorem applyMasteries_range (deltas : MasteryMap) :
    ∀ (p : MasteryMap), (∀ kv ∈ deltas, 0 ≤ kv.2) →
      (∀ kv ∈ p, 0 ≤ kv.2 ∧ kv.2 ≤ 100) →
      ∀ kv ∈ applyMasteries p deltas, 0 ≤ kv.2 ∧ kv.2 ≤ 100 := by
  induction deltas with
  | nil => intro p _ hp; simpa [applyMasteries] using hp
  | cons d rest ih =>
    intro p hd hp
    rw [applyMasteries_cons]
    exact ih _ (fun kv hkv => hd kv (List.mem_cons_of_mem _ hkv))
      (mset_min_range hp (hd d (List.mem_cons_self _ _)) d.1)

/-- The merge loop does not touch keys outside the delta map. -/
theorem applyMasteries_lookup_frame (deltas : MasteryMap) :
    ∀ (p : MasteryMap) (c : String), (∀ kv ∈ deltas, kv.1 ≠ c) →
      (applyMasteries p deltas).lookup c = p.lookup c := by
  induction deltas with
  | nil => intro p c _; rfl
  | cons d rest ih =>
    intro p c hc
    rw [applyMasteries_cons, ih _ _ (fun kv hkv => hc kv (List.mem_cons_of_mem _ hkv))]
    exact lookup_mset_ne p d.1 _ (Ne.symm (hc d (List.mem_cons_self _ _)))

/-- Merging nonnegative deltas never lowers a value below its pre-merge
reading, as long as the pre-merge map is `[0,100]`-valued. -/
theorem mget_applyMasteries_ge (deltas : MasteryMap) :
    ∀ (p : MasteryMap) (c : String), (∀ kv ∈ deltas, 0 ≤ kv.2) →
      (∀ kv ∈ p, 0 ≤ kv.2 ∧ kv.2 ≤ 100) →
      mget p c ≤ mget (applyMasteries p deltas) c := by
  induction deltas with
  | nil => intro p c _ _; simp [applyMasteries]
  | cons d rest ih =>
    intro p c hd hp
    have hd0 : 0 ≤ d.2 := hd d (List.mem_cons_self _ _)
    have hstep : mget p c ≤ mget (mset p d.1 (min 100 (mget p d.1 + d.2))) c := by
      by_cases hc : c = d.1
      · subst hc
        rw [mget_mset_self]
        have hb := mget_bounds hp d.1
        exact le_min hb.2 (by omega)
      · rw [mget_mset_ne _ _ _ hc]
    rw [applyMasteries_cons]
    exact le_trans hstep
      (ih _ _ (fun kv hkv => hd kv (List.mem_cons_of_mem _ hkv))
        (mset_min_range hp hd0 d.1))

/-! ### Claims about the mastery tracker -/

/-- Claim C1, counterexample: for a user whose persistent mastery for `c1` is
50, a session consisting of one incorrect answer on `c1` leaves the persistent
mastery at 50; the claimed value `max 0 (50 - 5) = 45` is not reached, because
the update floors the session-local delta (which starts at 0) rather than the
persistent value. -/
theorem quiz_C1_counterexample :
    finalMastery [("c1", 50)] [("c1", false)] "c1" = 50 ∧
    finalMastery [("c1", 50)] [("c1", false)] "c1" ≠ max 0 (50 - 5) := by
  decide

/-- Claim C1 (amended): on `isCorrect = false` the concept's session-local
adjustment is decremented by 5 and floored at 0; after the session each
persistent value becomes `min 100 (pre-session value + final adjustment)`, so
for a `[0,100]`-valued pre-session map an incorrect answer never lowers the
persistent mastery below its pre-session value. -/
theorem quiz_C1_amended :
    (∀ (m : MasteryMap) (cid : String),
      mget (stepMastery m cid false) cid = max 0 (mget m cid - 5)) ∧
    (∀ (persist : MasteryMap) (outcomes : List (String × Bool)) (c : String),
      (∀ kv ∈ persist, 0 ≤ kv.2 ∧ kv.2 ≤ 100) →
      mget persist c ≤ finalMastery persist outcomes c) := by
  constructor
  · intro m cid
    simp [stepMastery, mget_mset_self]
  · intro persist outcomes c hp
    exact mget_applyMasteries_ge _ _ _
      (fun kv hkv => sessionMasteries_nonneg outcomes kv hkv) hp

/-- Witness for C1 (amended) at concrete inputs. -/
theorem quiz_C1_amended_witness :
    mget (stepMastery [("c1", 50)] "c1" false) "c1" = max 0 (mget [("c1", 50)] "c1" - 5) ∧
    mget [("c1", 50)] "c1" ≤ finalMastery [("c1", 50)] [("c1", false)] "c1" :=
  ⟨quiz_C1_amended.1 [("c1", 50)] "c1",
   quiz_C1_amended.2 [("c1", 50)] [("c1", false)] "c1" (by decide)⟩

/-- Claim C2: for every grading-outcome sequence and every starting mastery
map whose values all lie in `[0,100]`, every concept's resulting persistent
mastery lies in `[0,100]`, regardless of sequence length or order. -/
theorem quiz_C2 (persist : MasteryMap) (outcomes : List (String × Bool))
    (c : String) (h : ∀ kv ∈ persist, 0 ≤ kv.2 ∧ kv.2 ≤ 100) :
    0 ≤ finalMastery persist outcomes c ∧ finalMastery persist outcomes c ≤ 100 := by
  unfold finalMastery
  exact mget_bounds
    (applyMasteries_range _ _
      (fun kv hkv => sessionMasteries_nonneg outcomes kv hkv) h) c

/-- Witness for C2 at a concrete map and outcome sequence. -/
theorem quiz_C2_witness :
    0 ≤ finalMastery [("a", 95), ("b", 3)] [("a", true), ("b", false), ("a", true)] "a" ∧
    finalMastery [("a", 95), ("b", 3)] [("a", true), ("b", false), ("a", true)] "a" ≤ 100 :=
  quiz_C2 [("a", 95), ("b", 3)] [("a", true), ("b", false), ("a", true)] "a" (by decide)

/-- Claim C3: starting from an empty mastery map, the session
`[(c1,true),(c1,true),(c1,false)]` yields final persistent mastery 15 for
`c1`. -/
theorem quiz_C3 :
    finalMastery [] [("c1", true), ("c1", true), ("c1", false)] "c1" = 15 := by
  decide

/-- Claim C7: a concept id not adjusted during the session keeps exactly its
pre-merge persistent mastery binding after `onComplete`'s merge. -/
theorem quiz_C7 (persist : MasteryMap) (outcomes : List (String × Bool))
    (c : String) (h : c ∉ outcomes.map Prod.fst) :
    (applyMasteries persist (sessionMasteries outcomes)).lookup c =
      persist.lookup c := by
  apply applyMasteries_lookup_frame
  intro kv hkv heq
  exact h (heq ▸ sessionMasteries_keys outcomes kv hkv)

/-- Witness for C7: concept `b` is untouched by a session on `a` and `c`. -/
theorem quiz_C7_witness :
    (applyMasteries [("b", 40)] (sessionMasteries [("a", true), ("c", false)])).lookup "b" =
      [("b", 40)].lookup "b" :=
  quiz_C7 [("b", 40)] [("a", true), ("c", false)] "b" (by decide)

/-! ### Quiz submit step -/

/-- `QuizFeedback` as used by both application files: a correctness flag, a
message, an optional correction and an optional memory tip. -/
structure QuizFeedback where
  isCorrect : Bool
  message : String
  correction : Option String
  memoryTip : Option String
deriving Repr, DecidableEq

/-- The per-question state of `QuizView` in the extended variant: the running
`score`, the session-local `masteries` map, and the displayed `feedback`. -/
structure QuizState where
  score : Nat
  masteries : MasteryMap
  feedback : Option QuizFeedback
deriving Repr, DecidableEq

/-- `QuizView.handleSubmit` (extended variant), given the outcome of the
`gradeAnswer` call: on success the feedback is shown, the score is incremented
exactly on `isCorrect`, and the session-local mastery map is updated; on a
thrown grading error the catch block only installs a fixed failure feedback. -/
def handleSubmit (st : QuizState) (cid : String)
    (res : Except String QuizFeedback) : QuizState :=
  match res with
  | .ok result =>
    if result.isCorrect then
      { st with feedback := some result, score := st.score + 1,
                masteries := stepMastery st.masteries cid true }
    else
      { st with feedback := some result,
                masteries := stepMastery st.masteries cid false }
  | .error _ =>
    { st with feedback := some ⟨false, "Could not grade answer.", none, some ""⟩ }

namespace V0

/-- The per-question state of `QuizView` in the base variant (`src/App.tsx`):
no mastery tracking, only the running score and the displayed feedback. -/
structure QuizState where
  score : Nat
  feedback : Option QuizFeedback
deriving Repr, DecidableEq

/-- `QuizView.handleSubmit` (base variant): on success the feedback is shown
and the score incremented exactly on `isCorrect`; the catch block only logs,
leaving the state unchanged. -/
def handleSubmit (st : QuizState) (res : Except String QuizFeedback) : QuizState :=
  match res with
  | .ok result =>
    { st with feedback := some result,
              score := if result.isCorrect then st.score + 1 else st.score }
  | .error _ => st

end V0

/-! ### Claims about the submit step and the score -/

/-- Claim C10: a grading failure (thrown `gradeAnswer` call) leaves the
session score and the session-local mastery adjustments unchanged in both
variants; it is not treated as an incorrect answer for scoring or mastery. -/
theorem quiz_C10 (st : QuizState) (st0 : V0.QuizState) (cid e : String) :
    (handleSubmit st cid (Except.error e)).score = st.score ∧
    (handleSubmit st cid (Except.error e)).masteries = st.masteries ∧
    (V0.handleSubmit st0 (Except.error e)).score = st0.score :=
  ⟨rfl, rfl, rfl⟩

theorem sessionScore_go (l : List (String × Bool)) :
    ∀ n : Nat, l.foldl (fun s o => if o.2 then s + 1 else s) n =
      n + l.countP (fun o => o.2) := by
  induction l with
  | nil => intro n; simp
  | cons o rest ih =>
    intro n
    cases h : o.2 with
    | true => simp [h, ih, List.countP_cons]; omega
    | false => simp [h, ih, List.countP_cons]

/-- The running score equals the number of correct outcomes. -/
theorem sessionScore_eq_countP (l : List (String × Bool)) :
    sessionScore l = l.countP (fun o => o.2) := by
  simpa using sessionScore_go l 0

/-- Claim C5: the final session score equals the number of outcomes with
`isCorrect = true`, and is invariant under permutation of the outcomes. -/
theorem quiz_C5 (l l' : List (String × Bool)) (h : l.Perm l') :
    sessionScore l = l.countP (fun o => o.2) ∧ sessionScore l = sessionScore l' := by
  refine ⟨sessionScore_eq_countP l, ?_⟩
  rw [sessionScore_eq_countP l, sessionScore_eq_countP l', h.countP_eq]

/-- Witness for C5 on a concrete permutation pair. -/
theorem quiz_C5_witness :
    sessionScore [("a", true), ("b", false), ("c", true)] =
      ([("a", true), ("b", false), ("c", true)] : List (String × Bool)).countP (fun o => o.2) ∧
    sessionScore [("a", true), ("b", false), ("c", true)] =
      sessionScore [("b", false), ("c", true), ("a", true)] :=
  quiz_C5 [("a", true), ("b", false), ("c", true)]
    [("b", false), ("c", true), ("a", true)] (by decide)

/-! ### JSON values, `JSON.parse` and `JSON.stringify`

The store serializes with `JSON.stringify` and reads back with `JSON.parse`.
JSON numbers are embedded as integers: every number this application stores
(scores, totals, mastery percentages) is an integer. -/

inductive Json where
  | null
  | bool (b : Bool)
  | num (n : Int)
  | str (s : String)
  | arr (elems : List Json)
  | obj (fields : List (String × Json))
deriving Repr

def isWsChar (c : Char) : Bool :=
  c = ' ' || c = '\n' || c = '\t' || c = '\r'

def skipWs : List Char → List Char
  | [] => []
  | c :: cs => if isWsChar c then skipWs cs else c :: cs

/-- Consume a maximal run of decimal digits, accumulating their value. -/
def takeDigits : List Char → Nat → Nat × List Char
  | [], acc => (acc, [])
  | c :: cs, acc =>
    if c.isDigit then takeDigits cs (acc * 10 + (c.toNat - 48)) else (acc, c :: cs)

/-- Parse a JSON number (integer form) from the input head. -/
def parseNum : List Char → Except String (Json × List Char)
  | [] => .error "unexpected end of input"
  | '-' :: rest =>
    match rest with
    | c :: _ =>
      if c.isDigit then
        let p := takeDigits rest 0
        .ok (.num (-(p.1 : Int)), p.2)
      else .error "invalid number"
    | [] => .error "invalid number"
  | c :: cs =>
    if c.isDigit then
      let p := takeDigits (c :: cs) 0
      .ok (.num (p.1 : Int), p.2)
    else .error "unexpected character"

def hexVal (c : Char) : Option Nat :=
  if c.isDigit then some (c.toNat - 48)
  else if 'a' ≤ c ∧ c ≤ 'f' then some (c.toNat - 87)
  else if 'A' ≤ c ∧ c ≤ 'F' then some (c.toNat - 55)
  else none

/-- Parse the body of a JSON string after the opening quote, handling the
standard escapes. -/
def parseStringBody : List Char → List Char → Except String (String × List Char)
  | [], _ => .error "unterminated string"
  | '"' :: rest, acc => .ok (String.mk acc.reverse, rest)
  | '\\' :: rest, acc =>
    match rest with
    | [] => .error "unterminated escape"
    | e :: rest2 =>
      match e with
      | '"' => parseStringBody rest2 ('"' :: acc)
      | '\\' => parseStringBody rest2 ('\\' :: acc)
      | '/' => parseStringBody rest2 ('/' :: acc)
      | 'b' => parseStringBody rest2 ('\x08' :: acc)
      | 'f' => parseStringBody rest2 ('\x0c' :: acc)
      | 'n' => parseStringBody rest2 ('\n' :: acc)
      | 'r' => parseStringBody rest2 ('\r' :: acc)
      | 't' => parseStringBody rest2 ('\t' :: acc)
      | 'u' =>
        match rest2 with
        | h1 :: h2 :: h3 :: h4 :: rest3 =>
          match hexVal h1, hexVal h2, hexVal h3, hexVal h4 with
          | some a, some b, some c, some d =>
            parseStringBody rest3 (Char.ofNat (((a * 16 + b) * 16 + c) * 16 + d) :: acc)
          | _, _, _, _ => .error "invalid unicode escape"
        | _ => .error "invalid unicode escape"
      | _ => .error "invalid escape"
  | c :: rest, acc => parseStringBody rest (c :: acc)

mutual

/-- Fuel-bounded recursive-descent parser for one JSON value; the fuel is an
upper bound on recursion depth, amply covered by the caller. -/
def parseVal : Nat → List Char → Except String (Json × List Char)
  | 0, _ => .error "input too deeply nested"
  | fuel + 1, cs =>
    match skipWs cs with
    | [] => .error "unexpected end of input"
    | 'n' :: 'u' :: 'l' :: 'l' :: rest => .ok (.null, rest)
    | 't' :: 'r' :: 'u' :: 'e' :: rest => .ok (.bool true, rest)
    | 'f' :: 'a' :: 'l' :: 's' :: 'e' :: rest => .ok (.bool false, rest)
    | '"' :: rest =>
      match parseStringBody rest [] with
      | .error e => .error e
      | .ok (s, rest2) => .ok (.str s, rest2)
    | '[' :: rest =>
      match skipWs rest with
      | ']' :: rest2 => .ok (.arr [], rest2)
      | rest2 => parseArrItems fuel rest2 []
    | '\x7b' :: rest =>
      match skipWs rest with
      | '\x7d' :: rest2 => .ok (.obj [], rest2)
      | rest2 => parseObjItems fuel rest2 []
    | other => parseNum other

/-- Parse the remaining comma-separated items of a non-empty array. -/
def parseArrItems : Nat → List Char → List Json → Except String (Json × List Char)
  | 0, _, _ => .error "input too deeply nested"
  | fuel + 1, cs, acc =>
    match parseVal fuel cs with
    | .error e => .error e
    | .ok (v, rest) =>
      match skipWs rest with
      | ',' :: rest2 => parseArrItems fuel rest2 (v :: acc)
      | ']' :: rest2 => .ok (.arr (v :: acc).reverse, rest2)
      | _ => .error "expected comma or closing bracket"

/-- Parse the remaining comma-separated fields of a non-empty object. -/
def parseObjItems : Nat → List Char → List (String × Json) →
    Except String (Json × List Char)
  | 0, _, _ => .error "input too deeply nested"
  | fuel + 1, cs, acc =>
    match skipWs cs with
    | '"' :: rest =>
      match parseStringBody rest [] with
      | .error e => .error e
      | .ok (k, rest2) =>
        match skipWs rest2 with
        | ':' :: rest3 =>
          match parseVal fuel rest3 with
          | .error e => .error e
          | .ok (v, rest4) =>
            match skipWs rest4 with
            | ',' :: rest5 => parseObjItems fuel rest5 ((k, v) :: acc)
            | '\x7d' :: rest5 => .ok (.obj ((k, v) :: acc).reverse, rest5)
            | _ => .error "expected comma or closing brace"
        | _ => .error "expected colon"
    | _ => .error "expected object key"

end

/-- `JSON.parse`: parse one JSON value and require only whitespace after it;
any malformed input is a thrown `SyntaxError`, embedded as `.error`. -/
def jsonParse (s : String) : Except String Json :=
  match parseVal (2 * s.length + 2) s.data with
  | .error e => .error e
  | .ok (v, rest) =>
    match skipWs rest with
    | [] => .ok v
    | _ => .error "unexpected trailing characters"

def escapeChar (c : Char) : String :=
  match c with
  | '"' => "\\\""
  | '\\' => "\\\\"
  | '\n' => "\\n"
  | '\t' => "\\t"
  | '\r' => "\\r"
  | _ => String.mk [c]

def escapeString (s : String) : String :=
  String.join (s.data.map escapeChar)

mutual

/-- `JSON.stringify` on the embedded JSON values. -/
def Json.stringify : Json → String
  | .null => "null"
  | .bool true => "true"
  | .bool false => "false"
  | .num n => toString n
  | .str s => "\"" ++ escapeString s ++ "\""
  | .arr xs => "[" ++ stringifyItems xs ++ "]"
  | .obj kvs => "\x7b" ++ stringifyFields kvs ++ "\x7d"

def stringifyItems : List Json → String
  | [] => ""
  | [x] => Json.stringify x
  | x :: xs => Json.stringify x ++ "," ++ stringifyItems xs

def stringifyFields : List (String × Json) → String
  | [] => ""
  | [kv] => "\"" ++ escapeString kv.1 ++ "\":" ++ Json.stringify kv.2
  | kv :: kvs =>
    "\"" ++ escapeString kv.1 ++ "\":" ++ Json.stringify kv.2 ++ "," ++ stringifyFields kvs

end

/-! ### Persistent store (`localStorage` cells and the `DB` object) -/

/-- The three fixed string keys the application uses in `localStorage`:
`mp_users`, `mp_current_user`, `mp_network`. A cell holds `none` when the key
was never written. -/
structure Store where
  mp_users : Option String
  mp_current_user : Option String
  mp_network : Option String
deriving Repr, DecidableEq

/-- `localStorage.getItem(key) || fallback`: a missing key (JS `null`) and an
empty-string value both fall through to the fallback, since `""` is falsy. -/
def getItemOr (cell : Option String) (fallback : String) : String :=
  match cell with
  | none => fallback
  | some s => if s = "" then fallback else s

namespace DB

/-- `DB.getUsers` (both variants):
`JSON.parse(localStorage.getItem('mp_users') || '[]')` — there is no
try/catch around the parse, so a malformed value propagates as an error. -/
def getUsers (st : Store) : Except String Json :=
  jsonParse (getItemOr st.mp_users "[]")

/-- `DB.getCurrentUser` (both variants):
`JSON.parse(localStorage.getItem('mp_current_user') || 'null')`. -/
def getCurrentUser (st : Store) : Except String Json :=
  jsonParse (getItemOr st.mp_current_user "null")

/-- `DB.setCurrentUser` (both variants):
`localStorage.setItem('mp_current_user', JSON.stringify(user))`, where the
argument is a user object or `null`. -/
def setCurrentUser (st : Store) (u : Json) : Store :=
  { st with mp_current_user := some (Json.stringify u) }

/-- `DB.getNetwork` (extended variant):
`JSON.parse(localStorage.getItem('mp_network') || '[]')`. -/
def getNetwork (st : Store) : Except String Json :=
  jsonParse (getItemOr st.mp_network "[]")

end DB

/-- The header logout button (both variants): `DB.setCurrentUser(null)`; the
user list key is not touched. -/
def logout (st : Store) : Store :=
  DB.setCurrentUser st Json.null

/-! ### Claims about the store -/

/-- Claim C4, counterexample: with the corrupted value `"oops"` stored under
the user-list key, `DB.getUsers` raises (the `JSON.parse` error propagates)
instead of returning a sequence of users. -/
theorem store_C4_counterexample :
    DB.getUsers ⟨some "oops", none, none⟩ = Except.error "unexpected character" ∧
    (DB.getUsers ⟨some "oops", none, none⟩).isOk = false := by
  exact ⟨rfl, rfl⟩

/-- Claim C4 (amended): an absent user-list key, or one holding the empty
string, reads as the empty array via the `|| '[]'` default, but a
corrupted/non-JSON value is handed to `JSON.parse`, which throws: the read
raises rather than returning an empty sequence. -/
theorem store_C4_amended :
    (∀ st : Store, st.mp_users = none → DB.getUsers st = Except.ok (Json.arr [])) ∧
    (∀ st : Store, st.mp_users = some "" → DB.getUsers st = Except.ok (Json.arr [])) ∧
    DB.getUsers ⟨some "oops", none, none⟩ = Except.error "unexpected character" := by
  refine ⟨?_, ?_, rfl⟩
  · intro st h
    unfold DB.getUsers getItemOr
    rw [h]
    rfl
  · intro st h
    unfold DB.getUsers getItemOr
    rw [h]
    rfl

/-- Witness for C4 (amended) at concrete stores. -/
theorem store_C4_amended_witness :
    DB.getUsers ⟨none, none, none⟩ = Except.ok (Json.arr []) ∧
    DB.getUsers ⟨some "", none, none⟩ = Except.ok (Json.arr []) :=
  ⟨store_C4_amended.1 ⟨none, none, none⟩ rfl,
   store_C4_amended.2.1 ⟨some "", none, none⟩ rfl⟩

/-- Claim C8: logout rewrites only the current-session pointer: reading the
user list afterwards gives exactly the pre-logout result, and the
current-session read yields `null` (absent). -/
theorem store_C8 (st : Store) :
    DB.getUsers (logout st) = DB.getUsers st ∧
    DB.getCurrentUser (logout st) = Except.ok Json.null :=
  ⟨rfl, rfl⟩

/-! ### User records, upsert, quiz history -/

/-- The user-record fields the two application files read and write: `id`
(extended variant), `username`, the persistent `conceptMastery` map, and
`quizHistory`, whose entries are plain JS objects embedded as association
lists. The `types.ts` declaration itself is not part of the repository;
profile fields never read by the verified operations are omitted. -/
structure User where
  id : String
  username : String
  conceptMastery : MasteryMap
  quizHistory : List (List (String × Json))

/-- The upsert loop shared by both `DB.saveUser` variants: `findIndex` on the
key, replace the first match in place, else push. The store then re-serializes
the whole resulting list, so equal lists mean equal store content. -/
def upsertBy (key : User → String) : List User → User → List User
  | [], u => [u]
  | v :: vs, u => if key v = key u then u :: vs else v :: upsertBy key vs u

/-- `DB.saveUser` (extended variant): upsert keyed on
`users.findIndex(u => u.id === user.id)`. -/
def DB.saveUser (users : List User) (u : User) : List User :=
  upsertBy (fun v => v.id) users u

/-- `DB.saveUser` (base variant): upsert keyed on
`users.findIndex(u => u.username === user.username)`. -/
def V0.DB.saveUser (users : List User) (u : User) : List User :=
  upsertBy (fun v => v.username) users u

theorem upsertBy_append (key : User → String) (users : List User) (u : User)
    (h : ∀ v ∈ users, key v ≠ key u) : upsertBy key users u = users ++ [u] := by
  induction users with
  | nil => rfl
  | cons v vs ih =>
    have hv : key v ≠ key u := h v (List.mem_cons_self _ _)
    simp only [upsertBy, if_neg hv, List.cons_append]
    rw [ih (fun w hw => h w (List.mem_cons_of_mem _ hw))]

theorem upsertBy_replace (key : User → String) (u : User) :
    ∀ (pre : List User) (v : User) (post : List User),
      (∀ w ∈ pre, key w ≠ key u) → key v = key u →
      upsertBy key (pre ++ v :: post) u = pre ++ u :: post := by
  intro pre
  induction pre with
  | nil => intro v post _ hv; simp [upsertBy, hv]
  | cons w ws ih =>
    intro v post hpre hv
    have hw : key w ≠ key u := hpre w (List.mem_cons_self _ _)
    simp only [List.cons_append, upsertBy, if_neg hw, List.append_eq]
    rw [ih v post (fun x hx => hpre x (List.mem_cons_of_mem _ hx)) hv]

theorem upsertBy_idem (key : User → String) (users : List User) (u : User) :
    upsertBy key (upsertBy key users u) u = upsertBy key users u := by
  induction users with
  | nil => simp [upsertBy]
  | cons v vs ih =>
    by_cases h : key v = key u
    · simp [upsertBy, h]
    · simp [upsertBy, h, ih]

/-! ### Quiz completion -/

/-- The history record pushed by `App.onComplete` (extended variant):
`{ date, score, total: questions.length, sheetId: studyData.id }`. -/
def mkSessionRecord (date : String) (score total : Nat) (sheetId : String) :
    List (String × Json) :=
  [("date", Json.str date), ("score", Json.num (score : Int)),
   ("total", Json.num (total : Int)), ("sheetId", Json.str sheetId)]

/-- `App.onComplete` (extended variant): push one history record onto the
user's `quizHistory` and merge the session mastery deltas into
`conceptMastery`; the updated record is then saved via `DB.saveUser`. -/
def onComplete (u : User) (date : String) (score total : Nat) (sheetId : String)
    (masteries : MasteryMap) : User :=
  { u with
    quizHistory := u.quizHistory ++ [mkSessionRecord date score total sheetId],
    conceptMastery := applyMasteries u.conceptMastery masteries }

/-- The history record pushed by `App.finishQuiz` (base variant):
`{ date, score, total: questions.length }` — no sheet id. -/
def V0.mkSessionRecord (date : String) (score total : Nat) :
    List (String × Json) :=
  [("date", Json.str date), ("score", Json.num (score : Int)),
   ("total", Json.num (total : Int))]

/-- `App.finishQuiz` (base variant): push one history record onto the user's
`quizHistory`; the updated record is then saved via `DB.saveUser`. -/
def V0.finishQuiz (u : User) (date : String) (score total : Nat) : User :=
  { u with quizHistory := u.quizHistory ++ [V0.mkSessionRecord date score total] }

/-! ### Claims about persistence of user records -/

/-- Claim C6: both `saveUser` variants are upserts on their identity key
(`id` in the extended variant, `username` in the base variant): the first
entry with a matching identity is replaced in place, otherwise the user is
appended; saving the same record twice leaves the list — and hence the
re-serialized store content — equal to the result of one save. -/
theorem store_C6 (users : List User) (u : User) :
    ((∀ v ∈ users, v.id ≠ u.id) → DB.saveUser users u = users ++ [u]) ∧
    (∀ (pre : List User) (v : User) (post : List User),
      users = pre ++ v :: post → (∀ w ∈ pre, w.id ≠ u.id) → v.id = u.id →
      DB.saveUser users u = pre ++ u :: post) ∧
    DB.saveUser (DB.saveUser users u) u = DB.saveUser users u ∧
    ((∀ v ∈ users, v.username ≠ u.username) →
      V0.DB.saveUser users u = users ++ [u]) ∧
    (∀ (pre : List User) (v : User) (post : List User),
      users = pre ++ v :: post → (∀ w ∈ pre, w.username ≠ u.username) →
      v.username = u.username → V0.DB.saveUser users u = pre ++ u :: post) ∧
    V0.DB.saveUser (V0.DB.saveUser users u) u = V0.DB.saveUser users u := by
  refine ⟨fun h => upsertBy_append _ users u h,
    fun pre v post heq hpre hv => ?_,
    upsertBy_idem _ users u,
    fun h => upsertBy_append _ users u h,
    fun pre v post heq hpre hv => ?_,
    upsertBy_idem _ users u⟩
  · rw [heq]
    exact upsertBy_replace _ u pre v post hpre hv
  · rw [heq]
    exact upsertBy_replace _ u pre v post hpre hv

/-- Witness for C6 at concrete user lists. -/
theorem store_C6_witness :
    DB.saveUser [User.mk "u2" "bob" [("c1", 40)] []] (User.mk "u1" "alice" [] []) =
      [User.mk "u2" "bob" [("c1", 40)] []] ++ [User.mk "u1" "alice" [] []] ∧
    DB.saveUser [User.mk "u2" "bob" [("c1", 40)] [], User.mk "u1" "alice" [] []]
        (User.mk "u1" "alice" [("c2", 10)] []) =
      [User.mk "u2" "bob" [("c1", 40)] []] ++ User.mk "u1" "alice" [("c2", 10)] [] :: [] ∧
    DB.saveUser (DB.saveUser [User.mk "u2" "bob" [("c1", 40)] []] (User.mk "u1" "alice" [] []))
        (User.mk "u1" "alice" [] []) =
      DB.saveUser [User.mk "u2" "bob" [("c1", 40)] []] (User.mk "u1" "alice" [] []) := by
  refine ⟨(store_C6 [User.mk "u2" "bob" [("c1", 40)] []] (User.mk "u1" "alice" [] [])).1
      (by simp), ?_,
    (store_C6 [User.mk "u2" "bob" [("c1", 40)] []] (User.mk "u1" "alice" [] [])).2.2.1⟩
  exact (store_C6 [User.mk "u2" "bob" [("c1", 40)] [], User.mk "u1" "alice" [] []]
      (User.mk "u1" "alice" [("c2", 10)] [])).2.1
    [User.mk "u2" "bob" [("c1", 40)] []] (User.mk "u1" "alice" [] []) [] rfl (by simp) rfl

/-- Claim C9, counterexample: in the base variant, the record appended by
`finishQuiz` holds only `date`, `score` and `total`; it carries no
`sheetId` field, so the claim that every appended session record contains
the originating sheet id fails there. -/
theorem hist_C9_counterexample :
    (V0.finishQuiz (User.mk "u1" "alice" [] []) "2024-05-01" 3 10).quizHistory =
      [V0.mkSessionRecord "2024-05-01" 3 10] ∧
    (V0.mkSessionRecord "2024-05-01" 3 10).lookup "sheetId" = none :=
  ⟨rfl, rfl⟩

/-- Claim C9 (amended): on quiz completion exactly one record is appended to
the end of the user's history and no existing entry is removed, modified or
deduplicated, in both variants; the record holds the timestamp, score and
question total, and in the extended variant also the originating sheet id,
which the base variant's record omits. -/
theorem hist_C9_amended (u : User) (d : String) (s t : Nat) (sid : String)
    (ms : MasteryMap) :
    (onComplete u d s t sid ms).quizHistory =
      u.quizHistory ++ [mkSessionRecord d s t sid] ∧
    (mkSessionRecord d s t sid).lookup "date" = some (Json.str d) ∧
    (mkSessionRecord d s t sid).lookup "score" = some (Json.num (s : Int)) ∧
    (mkSessionRecord d s t sid).lookup "total" = some (Json.num (t : Int)) ∧
    (mkSessionRecord d s t sid).lookup "sheetId" = some (Json.str sid) ∧
    (V0.finishQuiz u d s t).quizHistory =
      u.quizHistory ++ [V0.mkSessionRecord d s t] ∧
    (V0.mkSessionRecord d s t).lookup "sheetId" = none :=
  ⟨rfl, rfl, rfl, rfl, rfl, rfl, rfl⟩
